import Mathlib

/-!
Verification of the AI-Tools voice-orchestrator repository.

Shallow embedding of the Python sources:
  * `src/voice-interface/orchestrator/pane_monitor.py`  (pane classifier)
  * `src/voice-interface/orchestrator/main.py`          (conversation loop, complexity classifier)
  * `src/voice-interface/orchestrator/tts.py`           (TTS engine)
  * `src/voice-interface/orchestrator/speaker_verify.py`(speaker verification)
  * `src/voice-interface/orchestrator/brain.py`         (brain client)
  * `src/voice-interface/orchestrator/task_router.py`   (task router)
  * `src/mcp-servers/task-state/server.py`              (task-state store)

Strings are modelled as `List Char`; only ASCII whitespace and the `\n`
line separator are modelled (the pane/CLI text the program handles is
ASCII terminal output).  Machine floats appearing in the sources
(similarity scores) are modelled as `Rat` oracle parameters.
-/

namespace S2P

/-! ## Python string primitives -/

/-- Python whitespace (`str.strip`, `\s` for ASCII text):
space, tab, newline, carriage return, vertical tab, form feed. -/
def pyIsSpace (c : Char) : Bool :=
  c = ' ' || c = '\t' || c = '\n' || c = '\r' ||
  c.toNat = 11 || c.toNat = 12

/-- Python `str.strip()` on a character list. -/
def pyStrip (l : List Char) : List Char :=
  ((l.dropWhile pyIsSpace).reverse.dropWhile pyIsSpace).reverse

/-- Python `str.strip()` on a `String`. -/
def pyStripStr (s : String) : String :=
  ⟨pyStrip s.data⟩

/-- Split on a separator character, keeping empty pieces
(the helper under `pySplitlines`). -/
def splitOnChar (sep : Char) : List Char → List (List Char)
  | [] => [[]]
  | c :: t =>
    let r := splitOnChar sep t
    if c = sep then [] :: r
    else match r with
      | [] => [[c]]
      | p :: ps => (c :: p) :: ps

/-- Python `str.splitlines()` restricted to `\n` separators:
empty string gives `[]`, and a trailing newline produces no trailing
empty line. -/
def pySplitlines (l : List Char) : List (List Char) :=
  if l = [] then []
  else
    let ps := splitOnChar '\n' l
    if l.getLast? = some '\n' then ps.dropLast else ps

/-- Python `"\n".join(lines)`. -/
def joinNl : List (List Char) → List Char
  | [] => []
  | [x] => x
  | x :: xs => x ++ '\n' :: joinNl xs

/-- Python `lines[-n:]`. -/
def pyLastN (n : Nat) (l : List α) : List α :=
  l.drop (l.length - n)

/-- Python `str.lower()` (ASCII). -/
def pyLower (l : List Char) : List Char :=
  l.map Char.toLower

/-- Python `str.split()` (no argument): split on runs of whitespace,
producing no empty words. -/
def pySplitWs (l : List Char) : List (List Char) :=
  let p := l.foldr
    (fun c (acc : List (List Char) × List Char) =>
      if pyIsSpace c then
        (if acc.2 = [] then acc else (acc.2 :: acc.1, []))
      else (acc.1, c :: acc.2))
    ([], [])
  if p.2 = [] then p.1 else p.2 :: p.1

/-- Python `pat in s` (substring containment). -/
def pyContains (pat l : List Char) : Bool :=
  l.tails.any (fun t => pat.isPrefixOf t)

/-- Python `str.strip(chars)`: strip any of `chars` from both ends. -/
def pyStripChars (chars : List Char) (l : List Char) : List Char :=
  ((l.dropWhile (chars.contains ·)).reverse.dropWhile (chars.contains ·)).reverse

/-! ## A small regex fragment

The patterns in `pane_monitor.py` use only: literal runs, a single
character class, `X*` over a class (`.*`, `\s*`), and the `$` anchor.
All patterns are `^`-anchored, and the module calls `pat.search(s)`
WITHOUT `re.MULTILINE`, so a pattern matches iff it matches a prefix
of the whole subject string (with `$` demanding the end). -/

inductive RItem where
  /-- a literal character sequence -/
  | lit (s : List Char)
  /-- one character of a class -/
  | cls (p : Char → Bool)
  /-- zero or more characters of a class (`\s*`, `.*`) -/
  | star (p : Char → Bool)
  /-- the `$` anchor -/
  | anchorEnd

/-- `rmatch items cs` : do the items match a prefix of `cs`
(the whole of `cs` if the pattern ends in `anchorEnd`)? -/
def rmatch : List RItem → List Char → Bool
  | [], _ => true
  | .anchorEnd :: _, cs => cs.isEmpty
  | .lit s :: rest, cs => s.isPrefixOf cs && rmatch rest (cs.drop s.length)
  | .cls p :: rest, cs =>
    match cs with
    | [] => false
    | c :: t => p c && rmatch rest t
  | .star p :: rest, cs => starGo p (rmatch rest) cs
where
  /-- try every split of the starred class -/
  starGo (p : Char → Bool) (k : List Char → Bool) : List Char → Bool
    | [] => k []
    | c :: t => k (c :: t) || (p c && starGo p k t)

/-! ## pane_monitor.py -/

inductive PaneState where
  | unknown
  | working
  | idle
  | errored
deriving DecidableEq, Repr

/-- `.` in a Python regex (no DOTALL): any character except `\n`. -/
def rDot (c : Char) : Bool := c ≠ '\n'

/-- `IDLE_PATTERNS` of pane_monitor.py, compiled.
`pat.search(line)` with every pattern `^`-anchored means: match a
prefix of the line. -/
def IDLE_RE : List (List RItem) :=
  [ [.lit ['❯'], .star pyIsSpace, .anchorEnd],
    [.lit ['>'], .star pyIsSpace, .anchorEnd],
    [.lit ['$'], .star pyIsSpace, .anchorEnd],
    [.lit ('c' :: 'o' :: 'n' :: 'n' :: 'o' :: 'r' :: '@' :: []), .star rDot,
      .cls (fun c => c = '$' || c = '#'), .star pyIsSpace, .anchorEnd],
    [.lit ['%'], .star pyIsSpace, .anchorEnd],
    [.lit ['('], .star rDot, .lit [')'], .star pyIsSpace, .lit ['❯'],
      .star pyIsSpace, .anchorEnd],
    [.lit ['('], .star rDot, .lit [')'], .star pyIsSpace, .lit ['>'],
      .star pyIsSpace, .anchorEnd] ]

/-- `ERROR_PATTERNS` of pane_monitor.py, compiled.  Every pattern
carries `(?i)`; we model case-insensitivity by lowercasing the subject
and writing the literals in lower case. -/
def ERROR_RE : List (List RItem) :=
  [ [.lit ('e' :: 'r' :: 'r' :: 'o' :: 'r' :: []),
      .cls (fun c => c = ':' || pyIsSpace c)],
    [.lit ("traceback (most recent".data)],
    [.star rDot, .lit ("exception:".data)],
    [.lit ("fatal:".data)],
    [.lit ("failed".data)],
    [.lit ("panic:".data)] ]

/-- `detect_state` of pane_monitor.py.  Note: the error patterns are
applied with `pat.search` to the `"\n"`-joined last-15-lines string,
and since none of them was compiled with `re.MULTILINE`, their `^`
anchor matches only at the very start of that joined string. -/
def detect_state (output : String) : PaneState :=
  if output.data = [] then .unknown
  else
    let lines := pySplitlines (pyStrip output.data)
    if lines = [] then .unknown
    else
      let tail := ((pyLastN 5 lines).map pyStrip).filter (· ≠ [])
      if tail ≠ [] && IDLE_RE.any (fun pat => rmatch pat (tail.getLastD [])) then
        .idle
      else
        let recent := joinNl (pyLastN 15 lines)
        if ERROR_RE.any (fun pat => rmatch pat (pyLower recent)) then
          .errored
        else
          .working

/-- Follows the spec's words (claim C1): a line *begins with* one of
the error markers `Error:`, `Traceback (most recent`, `Exception:`,
`fatal:`, `FAILED`, `panic:` (case-insensitively; `Error` may also be
followed by whitespace as in the source pattern `^error[:\s]`). -/
def spec_beginsWithErrorMarker (line : List Char) : Bool :=
  let l := pyLower line
  (("error:".data).isPrefixOf l || ("error ".data).isPrefixOf l ||
   ("error\t".data).isPrefixOf l) ||
  ("traceback (most recent".data).isPrefixOf l ||
  ("exception:".data).isPrefixOf l ||
  ("fatal:".data).isPrefixOf l ||
  ("failed".data).isPrefixOf l ||
  ("panic:".data).isPrefixOf l

/-! ## main.py : Orchestrator -/

/-- `ACTION_KEYWORDS` of main.py. -/
def ACTION_KEYWORDS : List String :=
  ["click", "type", "open", "mouse", "screen", "browser", "window",
   "scroll", "fill", "form", "cursor", "move", "press", "close",
   "focus", "switch", "tab", "desktop", "display", "launch", "run"]

/-- `Orchestrator._classify_complexity` of main.py. -/
def classify_complexity (text : String) : String :=
  let words := pySplitWs (pyLower text.data)
  if words.any (fun w => ACTION_KEYWORDS.any (fun k => k.data = w)) then "full"
  else if words.length ≤ 12 then "quick"
  else "full"

/-- The action keyword set exactly as listed in claim C6 / the spec. -/
def spec_ACTION_KEYWORDS : List String :=
  ["click", "type", "open", "mouse", "screen", "browser", "window",
   "scroll", "fill", "form", "cursor", "move", "press", "close",
   "focus", "switch", "tab", "desktop", "display", "launch", "run"]

/-- Follows the spec's words (claim C6): "full" if any word of the
lower-cased utterance is in the action keyword set; otherwise "full"
for 13 or more words and "quick" for at most 12 words. -/
def spec_classify_complexity (text : String) : String :=
  let words := pySplitWs (pyLower text.data)
  if words.any (fun w => spec_ACTION_KEYWORDS.any (fun k => k.data = w)) then "full"
  else if 13 ≤ words.length then "full"
  else "quick"

/-- `END_PHRASES` of main.py. -/
def END_PHRASES : List String :=
  ["end conversation", "stop conversation", "goodbye", "bye",
   "jarvis end", "jarvis stop", "that's all", "thats all",
   "never mind", "nevermind", "dismiss"]

/-- `Orchestrator._is_end_command` of main.py:
`t = text.lower().strip().strip(".,!?")`, then substring test against
each end phrase. -/
def is_end_command (text : String) : Bool :=
  let t := pyStripChars ['.', ',', '!', '?'] (pyStrip (pyLower text.data))
  END_PHRASES.any (fun phrase => pyContains phrase.data t)

/-- One outcome of `recognizer.listen` + verification + transcription:
either a `WaitTimeoutError` or a transcribed text.  (Speaker
verification is disabled — no profile — in this model; the claims
C2 settles do not involve it.) -/
inductive ListenEvent where
  | timeout
  | speech (text : String)
deriving DecidableEq, Repr

/-- One `attempt` iteration inside `Orchestrator._listen_for_command`:
`none` models an empty result (timeout, or transcription of fewer
than 2 non-space characters). -/
def listenAttempt : ListenEvent → Option String
  | .timeout => none
  | .speech t => if t ≠ "" && 2 ≤ (pyStripStr t).length then some t else none

/-- `Orchestrator._listen_for_command` of main.py: at most two listen
attempts; an empty first result is retried once; two empty results in
a row return `""`.  The returned pair is (result, remaining events). -/
def listen_for_command : List ListenEvent → String × List ListenEvent
  | [] => ("", [])
  | e1 :: r1 =>
    match listenAttempt e1 with
    | some t => (t, r1)
    | none =>
      match r1 with
      | [] => ("", [])
      | e2 :: r2 => ((listenAttempt e2).getD "", r2)

/-- Observable actions of one conversation turn. -/
inductive TurnAction where
  | speak (text : String)
  | fastSpeak (text : String)
  | think (mode : String) (text : String)
deriving DecidableEq, Repr

/-- `Orchestrator._conversation_turn` of main.py: the `while True`
loop.  `route` models `self.fast_router.try_route` (the spoken reply
on a match) and `brain` models `self.brain.think`.  The event script
stands for the successive listener outcomes; an exhausted script stops
the model with `endedByUser = false` (the real loop would block
listening again).  Returns (actions, endedByUser): the loop `break`s
— returning the orchestrator to IDLE — only on an end command. -/
def conversation_turn (route : String → Option String) (brain : String → String) :
    Nat → List ListenEvent → List TurnAction × Bool
  | 0, _ => ([], false)
  | _ + 1, [] => ([], false)
  | fuel + 1, e :: evs =>
    let (userText, rest) := listen_for_command (e :: evs)
    if userText = "" || (pyStripStr userText).length < 2 then
      conversation_turn route brain fuel rest
    else if is_end_command userText then
      ([.speak "Alright, talk to you later."], true)
    else
      match route userText with
      | some response =>
        let (acts, ended) := conversation_turn route brain fuel rest
        (.fastSpeak response :: acts, ended)
      | none =>
        let complexity := classify_complexity userText
        let response := brain userText
        let (acts, ended) := conversation_turn route brain fuel rest
        (.think complexity userText ::
          (if response ≠ "" then [.speak response] else []) ++ acts, ended)

/-! ## tts.py : TTS engine -/

/-- The TTS engine's mutable fields: `_speaking`, `_cancel`, and
whether `_process` is a live player subprocess. -/
structure TTSState where
  speaking : Bool
  cancel : Bool
  procRunning : Bool
deriving DecidableEq, Repr

/-- Primitive effects the TTS engine can perform. -/
inductive TTSAct where
  /-- an invocation of `TTS.stop` -/
  | stopCalled
  /-- `self._process.terminate()` on a live player -/
  | procTerminate
  /-- streaming synthesis of an utterance -/
  | stream
  /-- spawning the player and waiting for playback -/
  | play
deriving DecidableEq, Repr

/-- `TTS.stop` of tts.py: set `_cancel`, terminate a live player,
clear `_speaking`. -/
def tts_stop (s : TTSState) : TTSState × List TTSAct :=
  (⟨false, true, false⟩,
   .stopCalled :: (if s.procRunning then [.procTerminate] else []))

/-- `TTS.speak` of tts.py, sequential semantics.  On blank text it
returns immediately; otherwise it clears `_cancel`, sets `_speaking`,
streams and plays the utterance, and finally clears `_speaking`.
No path through the body invokes `TTS.stop`. -/
def tts_speak (s : TTSState) (text : String) : TTSState × List TTSAct :=
  if pyStripStr text = "" then (s, [])
  else (⟨false, false, false⟩, [.stream, .play])

/-! ## speaker_verify.py : SpeakerVerifier -/

/-- Effects along `SpeakerVerifier.verify`. -/
inductive VerifyAct where
  | loadEncoder
  | embed
deriving DecidableEq, Repr

/-- `SpeakerVerifier.verify` of speaker_verify.py.  `profile` is
`self._profile` (`none` = no enrolled profile), `wavLen` the length of
the preprocessed wav, and `sim` an oracle for the floating-point
cosine similarity of the embedding against the profile (floats are
not modelled; the `none` branch never reaches it).  Returns
((is_match, similarity), performed effects). -/
def speaker_verify (threshold : ℚ) (profile : Option (List ℚ)) (wavLen : Nat)
    (sim : ℚ) : (Bool × ℚ) × List VerifyAct :=
  match profile with
  | none => ((true, 1), [])
  | some _ =>
    if wavLen < 1600 then ((false, 0), [.loadEncoder])
    else ((decide (threshold ≤ sim), sim), [.loadEncoder, .embed])

/-! ## brain.py : Brain client -/

/-- Fuel-driven core of Python `str.replace(old, "")` for a non-empty
pattern `c :: cs` (all the replacements in brain.py delete their
pattern): scan left to right, removing each non-overlapping match.
The fuel is the subject length; each step strictly shortens the
subject, so the fuel never runs out. -/
def pyReplaceGo (c : Char) (cs : List Char) : Nat → List Char → List Char
  | 0, l => l
  | _ + 1, [] => []
  | fuel + 1, x :: t =>
    if c = x && cs.isPrefixOf t then pyReplaceGo c cs fuel (t.drop cs.length)
    else x :: pyReplaceGo c cs fuel t

/-- Python `subject.replace(old, "")` (non-empty `old`; the empty
pattern does not occur in the source). -/
def pyReplaceDel (old : List Char) (l : List Char) : List Char :=
  match old with
  | [] => l
  | c :: cs => pyReplaceGo c cs l.length l

/-- Python `s.rsplit('.', 1)[0]`: everything before the last `'.'`,
or the whole string when it has no `'.'`. -/
def rsplitLastDot (l : List Char) : List Char :=
  match l.reverse.dropWhile (· ≠ '.') with
  | [] => l
  | _ :: rest => rest.reverse

/-- Lines 204–205 of brain.py:
`response.replace('```','').replace('**','').replace('`','')` then
`.replace('#','').strip()`. -/
def brainClean (r : List Char) : List Char :=
  pyStrip (pyReplaceDel ['#'] (pyReplaceDel ['`']
    (pyReplaceDel ['*', '*'] (pyReplaceDel ['`', '`', '`'] r))))

/-- Lines 204–208 of brain.py: cleaning followed by
`if len(response) > 500: response = response[:500].rsplit('.', 1)[0] + '.'`. -/
def brainPostProcess (r : List Char) : List Char :=
  let response := brainClean r
  if 500 < response.length then rsplitLastDot (response.take 500) ++ ['.']
  else response

/-- The timeout passed to `subprocess.run` in `Brain.think`:
15 s in "quick" mode, otherwise 60 s (lines 119–135 of brain.py). -/
def brainTimeout (mode : String) : Nat :=
  if mode = "quick" then 15 else 60

/-- Outcome of the `codex exec` subprocess call in `Brain.think`. -/
inductive CodexOutcome where
  /-- normal exit: contents of the output file, and captured stdout -/
  | completed (fileContent : String) (stdout : String)
  /-- `subprocess.TimeoutExpired` -/
  | timedOut
  /-- any other exception from the call -/
  | raised
deriving DecidableEq, Repr

/-- One remembered conversation turn (`self.history` entries). -/
structure HistEntry where
  user : String
  response : String
deriving DecidableEq, Repr

/-- Lines 197–201 of brain.py: when the output file is empty, salvage
the reply from stdout (drop command echoes, keep the last 3 lines). -/
def brainStdoutFallback (stdout : String) : List Char :=
  let response := pyStrip stdout.data
  let lines := pySplitlines response
  let spoken := lines.filter (fun l =>
    pyStrip l ≠ [] && l.head? ≠ some '$' && l.head? ≠ some '+')
  if spoken ≠ [] then joinNl (pyLastN 3 spoken)
  else "I ran into an issue processing that.".data

/-- `Brain.think` of brain.py, from the point the local-LLM fast path
has been resolved.  `localAnswer` models an early return from the
Ollama tier (lines 94–117): `some a` means that tier already produced
`a`.  `outcome` is the result of the `codex exec` subprocess (whose
timeout is `brainTimeout mode`).  Returns (spoken reply, history).
Every branch returns normally: the `except` clauses turn a timeout or
any other exception into a canned reply. -/
def brain_think (history : List HistEntry) (userText : String)
    (mode : String) (localAnswer : Option String) (outcome : CodexOutcome) :
    String × List HistEntry :=
  match localAnswer with
  | some a => (a, history ++ [⟨userText, a⟩])
  | none =>
    match outcome with
    | .timedOut => ("That took too long. Could you try a simpler request?", history)
    | .raised => ("I had trouble processing that.", history)
    | .completed fileContent stdout =>
      let response := pyStrip fileContent.data
      let response := if response = [] then brainStdoutFallback stdout else response
      let response := brainPostProcess response
      (⟨response⟩, history ++ [⟨userText, ⟨response⟩⟩])

/-! ## task_router.py : TaskRouter -/

/-- An `Assignment` record of task_router.py. -/
structure Assignment where
  window : Nat
  prompt : String
  assignedAt : Nat
  status : String
deriving DecidableEq, Repr

/-- Python dict assignment `d[k] = v` on an insertion-ordered
association list. -/
def dictSet (l : List (Nat × Assignment)) (k : Nat) (v : Assignment) :
    List (Nat × Assignment) :=
  if l.any (fun p => p.1 = k) then
    l.map (fun p => if p.1 = k then (k, v) else p)
  else l ++ [(k, v)]

/-- Python dict lookup `d.get(k)`. -/
def dictGet (k : Nat) : List (Nat × Assignment) → Option Assignment
  | [] => none
  | (k', v) :: t => if k' = k then some v else dictGet k t

/-- `TaskRouter.assign_task` of task_router.py.  `r1`, `r2`, `r3` are
the exit codes the three tmux subprocresses (`set-buffer`,
`paste-buffer`, `send-keys Enter`) would return; a non-zero exit makes
the method return `False` before the registry is touched, and later
commands are not run.  `now` is `time.time()` for the new record. -/
def assign_task (assignments : List (Nat × Assignment)) (now : Nat)
    (window : Nat) (prompt : String) (r1 r2 r3 : Int) :
    Bool × List (Nat × Assignment) :=
  if r1 ≠ 0 then (false, assignments)
  else if r2 ≠ 0 then (false, assignments)
  else if r3 ≠ 0 then (false, assignments)
  else (true, dictSet assignments window ⟨window, prompt, now, "active"⟩)

/-! ## mcp-servers/task-state/server.py

The SQLite `tasks` table is modelled as a list of rows; SQLite's
dynamic typing is modelled by a `Val` sum for the updatable columns.
`CURRENT_TIMESTAMP` is an explicit `now : Nat` argument (timestamps
are totally ordered and non-decreasing across calls). -/

/-- A dynamically-typed SQLite cell. -/
inductive Val where
  | str (v : String)
  | int (v : Int)
  | null
deriving DecidableEq, Repr

/-- A row of the `tasks` table. -/
structure TaskRow where
  id : Nat
  title : Val
  description : Val
  status : Val
  priority : Val
  assignee : Val
  parent : Val
  metadata : Val
  createdAt : Nat
  updatedAt : Nat
  completedAt : Option Nat
deriving DecidableEq, Repr

/-- The `tasks` table plus the AUTOINCREMENT counter. -/
structure TaskDB where
  rows : List TaskRow
  nextId : Nat
deriving DecidableEq, Repr

def validStatuses : List String := ["pending", "in_progress", "completed", "blocked"]

def validPriorities : List String := ["low", "medium", "high", "critical"]

def optVal : Option String → Val
  | none => .null
  | some s => .str s

/-- `create_task` of server.py: validates enums and parent existence,
inserts with fresh id and `created_at = updated_at = now`, and returns
the inserted row. -/
def create_task (db : TaskDB) (now : Nat) (title : String)
    (description : Option String) (status : String) (priority : String)
    (assignee : Option String) (parentTaskId : Option Nat)
    (metadata : Option String) : Except String (TaskRow × TaskDB) :=
  if ¬ validStatuses.contains status then
    .error "Invalid status"
  else if ¬ validPriorities.contains priority then
    .error "Invalid priority"
  else if parentTaskId.any (fun p => ¬ db.rows.any (fun r => r.id = p)) then
    .error "Parent task does not exist"
  else
    let row : TaskRow :=
      { id := db.nextId, title := .str title, description := optVal description,
        status := .str status, priority := .str priority,
        assignee := optVal assignee,
        parent := match parentTaskId with
          | some p => .int p
          | none => .null,
        metadata := optVal metadata,
        createdAt := now, updatedAt := now, completedAt := none }
    .ok (row, ⟨db.rows ++ [row], db.nextId + 1⟩)

/-- The whitelist of `update_task`. -/
def allowedFields : List String :=
  ["title", "description", "status", "priority", "assignee",
   "parent_task_id", "metadata"]

/-- One `field = ?` assignment of the UPDATE statement. -/
def setField (r : TaskRow) (f : String) (v : Val) : TaskRow :=
  if f = "title" then { r with title := v }
  else if f = "description" then { r with description := v }
  else if f = "status" then { r with status := v }
  else if f = "priority" then { r with priority := v }
  else if f = "assignee" then { r with assignee := v }
  else if f = "parent_task_id" then { r with parent := v }
  else if f = "metadata" then { r with metadata := v }
  else r

/-- `update_task` of server.py.  `updates` is the Python dict in
iteration order (its keys are therefore distinct).  Any key outside
the whitelist raises `ValueError` before the UPDATE is issued; an
empty dict raises as well.  The UPDATE also stamps
`updated_at = CURRENT_TIMESTAMP`, and `completed_at` when the updates
set `status` to `"completed"`; the updated row is then re-fetched. -/
def update_task (db : TaskDB) (now : Nat) (taskId : Nat)
    (updates : List (String × Val)) : Except String (TaskRow × TaskDB) :=
  match db.rows.find? (fun r => r.id = taskId) with
  | none => .error "Task not found"
  | some row =>
    match updates.find? (fun fv => ¬ allowedFields.contains fv.1) with
    | some fv => .error ("Invalid field: " ++ fv.1)
    | none =>
      if updates = [] then .error "No valid fields to update"
      else
        let row1 := updates.foldl (fun r fv => setField r fv.1 fv.2) row
        let row2 := { row1 with
          updatedAt := now,
          completedAt :=
            if updates.lookup "status" = some (.str "completed") then some now
            else row1.completedAt }
        let rows' := db.rows.map (fun r => if r.id = taskId then row2 else r)
        let fetched := (rows'.find? (fun r => r.id = taskId)).getD row2
        .ok (fetched, ⟨rows', db.nextId⟩)

/-- `get_task` of server.py: the row plus its direct subtask ids
(`WHERE parent_task_id = ?`). -/
def get_task (db : TaskDB) (taskId : Nat) :
    Except String (TaskRow × List Nat) :=
  match db.rows.find? (fun r => r.id = taskId) with
  | none => .error "Task not found"
  | some row =>
    .ok (row, (db.rows.filter (fun r => r.parent = .int taskId)).map (·.id))

/-- One round of SQLite's `ON DELETE CASCADE`: ids of rows whose
parent is already scheduled for deletion but which are not yet
scheduled themselves. -/
def cascadeStep (rows : List TaskRow) (acc : List Nat) : List Nat :=
  (rows.filter (fun r =>
    (match r.parent with
     | .int p => acc.any (fun n => (n : Int) = p)
     | _ => false) && ¬ acc.contains r.id)).map (·.id)

/-- Transitive closure of the cascade, fuelled by the table size. -/
def cascadeSet (rows : List TaskRow) : Nat → List Nat → List Nat
  | 0, acc => acc
  | fuel + 1, acc =>
    let next := cascadeStep rows acc
    if next = [] then acc else cascadeSet rows fuel (acc ++ next)

/-- `delete_task` of server.py: `DELETE FROM tasks WHERE id = ?` with
`PRAGMA foreign_keys = ON`, so `ON DELETE CASCADE` removes all
descendants as well.  Returns the deleted row. -/
def delete_task (db : TaskDB) (taskId : Nat) :
    Except String (TaskRow × TaskDB) :=
  match db.rows.find? (fun r => r.id = taskId) with
  | none => .error "Task not found"
  | some row =>
    let dead := cascadeSet db.rows db.rows.length [taskId]
    .ok (row, ⟨db.rows.filter (fun r => ¬ dead.contains r.id), db.nextId⟩)

/-! ## Theorems -/

/-- **C1.**  The claim says the classifier returns ERRORED whenever any
of the last ~15 lines begins with an error marker.  The code joins
those lines with `"\n"` and applies the `^`-anchored patterns with
`re.search` but WITHOUT `re.MULTILINE`, so only the very first line of
that window can trigger: a snapshot whose third-from-last line is
plain text and whose last line begins with `Error:` is classified
WORKING, although its last line begins with an error marker and is not
an idle prompt.  The same text alone (where `Error:` is the start of
the joined window) is classified ERRORED, and the spec's strictness
example (`error` mid-line) correctly yields WORKING. -/
theorem C1_error_marker_only_seen_on_first_window_line :
    detect_state "line one\nline two\nError: disk full" = .working ∧
    (pyLastN 15 (pySplitlines
        (pyStrip "line one\nline two\nError: disk full".data))).any
      spec_beginsWithErrorMarker = true ∧
    detect_state "Error: disk full" = .errored ∧
    detect_state "handled error gracefully, continuing" = .working := by
  decide

/-- **C2.**  The claim says two consecutive listener timeouts end the
turn (return to IDLE).  In the code, `_listen_for_command` returns
`""` after two consecutive timeouts, and `_conversation_turn` merely
`continue`s on an empty result: the loop keeps running.  With the
event script timeout·timeout·speech, the model processes the
subsequent speech in the same turn (a `think` and a `speak` action)
and the turn is still not ended (`endedByUser = false`). -/
theorem C2_double_timeout_does_not_end_turn :
    conversation_turn (fun _ => none) (fun _ => "It is noon.") 5
      [.timeout, .timeout, .speech "what time is it right now"] =
      ([.think "quick" "what time is it right now", .speak "It is noon."],
        false) := by
  decide

/-- **C4.**  With no enrolled profile (`self._profile is None`),
`verify` returns `(accept=true, similarity=1.0)` immediately: no
encoder is loaded and no embedding is computed (the effect list is
empty), for every audio clip, threshold and similarity oracle. -/
theorem C4_verify_opt_in_without_profile (threshold : ℚ) (wavLen : Nat)
    (sim : ℚ) :
    speaker_verify threshold none wavLen sim = ((true, 1), []) ∧
    VerifyAct.embed ∉ (speaker_verify threshold none wavLen sim).2 := by
  exact ⟨rfl, by simp [speaker_verify]⟩

/-- **C5.**  When the `codex exec` subprocess raises
`TimeoutExpired`, `Brain.think` returns exactly the canned reply
"That took too long. Could you try a simpler request?" (leaving the
history untouched), and the timeout handed to the subprocess is 15 s
in "quick" mode and 60 s otherwise.  `brain_think` is a total
function: the `except` clauses mean no exception escapes. -/
theorem C5_brain_timeout_reply (history : List HistEntry)
    (userText mode : String) :
    brain_think history userText mode none .timedOut =
      ("That took too long. Could you try a simpler request?", history) ∧
    brainTimeout "quick" = 15 ∧ brainTimeout "full" = 60 :=
  ⟨rfl, rfl, rfl⟩

/-- **C6.**  `_classify_complexity` agrees with the spec's decision
rule on every utterance: "full" when some word of the lower-cased,
whitespace-split utterance is an action keyword, otherwise "quick" for
at most 12 words and "full" for 13 or more. -/
theorem C6_classify_complexity_matches_spec (text : String) :
    classify_complexity text = spec_classify_complexity text := by
  simp only [classify_complexity, spec_classify_complexity,
    ACTION_KEYWORDS, spec_ACTION_KEYWORDS]
  split_ifs with h1 h2 h3 <;> first | rfl | omega

/-- **C3 counterexample.**  The claim says a `speak()` issued while an
utterance is in progress first calls `stop()`.  In the engine state
where an utterance is in progress (`_speaking = True`, live player
process), `speak("hello")` performs no `stop()` invocation at all:
its effect trace has no `stopCalled` entry. -/
theorem C3_counterexample_speak_never_calls_stop :
    (⟨true, false, true⟩ : TTSState).speaking = true ∧
    (tts_speak ⟨true, false, true⟩ "hello").2.contains .stopCalled = false := by
  decide

/-- **C3 (amended).**  `TTS.speak` never invokes `TTS.stop` on any
input and in any engine state; cancelling in-flight playback happens
only through an explicit `stop()` call, which clears the speaking
flag, sets the cancel flag, and terminates the player process when one
is live. -/
theorem C3_speak_does_not_stop (s : TTSState) (text : String) :
    TTSAct.stopCalled ∉ (tts_speak s text).2 ∧
    (tts_stop s).1.speaking = false ∧
    (tts_stop s).1.cancel = true ∧
    (s.procRunning = true → TTSAct.procTerminate ∈ (tts_stop s).2) := by
  refine ⟨?_, rfl, rfl, fun h => ?_⟩
  · by_cases hb : pyStripStr text = "" <;> simp [tts_speak, hb]
  · simp [tts_stop, h]

/-- Witness for `C3_speak_does_not_stop` at a concrete in-progress
state and utterance. -/
theorem C3_speak_does_not_stop_witness :
    TTSAct.stopCalled ∉ (tts_speak ⟨true, false, true⟩ "hi").2 ∧
    TTSAct.procTerminate ∈ (tts_stop ⟨true, false, true⟩).2 :=
  ⟨(C3_speak_does_not_stop ⟨true, false, true⟩ "hi").1,
   (C3_speak_does_not_stop ⟨true, false, true⟩ "hi").2.2.2 rfl⟩

/-- Deleting occurrences of a pattern never adds characters. -/
theorem mem_of_mem_pyReplaceGo {x c : Char} {cs : List Char} :
    ∀ {n : Nat} {l : List Char}, x ∈ pyReplaceGo c cs n l → x ∈ l := by
  intro n
  induction n with
  | zero => intro l h; simpa [pyReplaceGo] using h
  | succ n ih =>
    intro l h
    match l with
    | [] => simpa [pyReplaceGo] using h
    | y :: t =>
      simp only [pyReplaceGo] at h
      split at h
      · exact List.mem_cons_of_mem _ (List.drop_subset _ _ (ih h))
      · rcases List.mem_cons.mp h with h | h
        · exact h ▸ List.mem_cons_self _ _
        · exact List.mem_cons_of_mem _ (ih h)

/-- Deleting every occurrence of a single character removes it
completely (given enough fuel). -/
theorem not_mem_pyReplaceGo_single {c : Char} :
    ∀ {n : Nat} {l : List Char}, l.length ≤ n → c ∉ pyReplaceGo c [] n l := by
  intro n
  induction n with
  | zero =>
    intro l hl
    have : l = [] := List.length_eq_zero.mp (Nat.le_zero.mp hl)
    subst this
    simp [pyReplaceGo]
  | succ n ih =>
    intro l hl
    match l with
    | [] => simp [pyReplaceGo]
    | y :: t =>
      have ht : t.length ≤ n := Nat.le_of_succ_le_succ hl
      simp only [pyReplaceGo] at *
      split
      · next hc =>
        simpa using ih (l := t.drop 0) (by simpa using ht)
      · next hc =>
        intro hmem
        rcases List.mem_cons.mp hmem with h | h
        · exact hc (by simp [h])
        · exact ih ht h

/-- Membership survives `dropWhile` removal in reverse. -/
theorem mem_of_mem_dropWhile {p : Char → Bool} {x : Char} :
    ∀ {l : List Char}, x ∈ l.dropWhile p → x ∈ l := by
  intro l
  induction l with
  | nil => intro h; simpa using h
  | cons y t ih =>
    intro h
    by_cases hy : p y = true
    · simp only [List.dropWhile, hy] at h
      exact List.mem_cons_of_mem _ (ih h)
    · simp only [List.dropWhile, Bool.of_not_eq_true hy] at h
      simpa using h

/-- `pyStrip` only removes characters. -/
theorem mem_of_mem_pyStrip {x : Char} {l : List Char}
    (h : x ∈ pyStrip l) : x ∈ l := by
  unfold pyStrip at h
  rw [List.mem_reverse] at h
  have h2 := mem_of_mem_dropWhile h
  rw [List.mem_reverse] at h2
  exact mem_of_mem_dropWhile h2

/-- The cleaned brain reply contains no backtick and no `#`. -/
theorem brainClean_no_backtick_hash (r : List Char) :
    '`' ∉ brainClean r ∧ '#' ∉ brainClean r := by
  unfold brainClean pyReplaceDel
  set s2 := pyReplaceGo '*' ['*']
    (pyReplaceGo '`' ['`', '`'] r.length r).length
    (pyReplaceGo '`' ['`', '`'] r.length r) with hs2
  have hbt : '`' ∉ pyReplaceGo '`' [] s2.length s2 :=
    not_mem_pyReplaceGo_single (Nat.le_refl _)
  constructor
  · intro h
    exact hbt (mem_of_mem_pyReplaceGo (mem_of_mem_pyStrip h))
  · intro h
    exact not_mem_pyReplaceGo_single (Nat.le_refl _) (mem_of_mem_pyStrip h)

/-- When `'.' ∈ r`, `dropWhile (· ≠ '.')` lands on that dot. -/
theorem dropWhile_ne_dot_cons {r : List Char} (h : '.' ∈ r) :
    ∃ rest, r.dropWhile (fun c => c ≠ '.') = '.' :: rest := by
  induction r with
  | nil => cases h
  | cons y t ih =>
    by_cases hy : y = '.'
    · subst hy
      exact ⟨t, by simp [List.dropWhile]⟩
    · have hmem : '.' ∈ t := by
        rcases List.mem_cons.mp h with h | h
        · exact absurd h.symm hy
        · exact h
      obtain ⟨rest, hrest⟩ := ih hmem
      exact ⟨rest, by rw [List.dropWhile_cons, if_pos (by simp [hy]), hrest]⟩

/-- `rsplitLastDot` splits off everything after the last dot:
`l = rsplitLastDot l ++ '.' :: tail` with a dot-free tail. -/
theorem rsplitLastDot_decomp {l : List Char} (h : '.' ∈ l) :
    ∃ tail, l = rsplitLastDot l ++ '.' :: tail ∧ '.' ∉ tail := by
  obtain ⟨rest, hrest⟩ := dropWhile_ne_dot_cons (List.mem_reverse.mpr h)
  refine ⟨(l.reverse.takeWhile (fun c => c ≠ '.')).reverse, ?_, ?_⟩
  · have hsplit :
        l.reverse.takeWhile (fun c => c ≠ '.') ++
          l.reverse.dropWhile (fun c => c ≠ '.') = l.reverse :=
      List.takeWhile_append_dropWhile _ _
    rw [rsplitLastDot, hrest]
    calc l = l.reverse.reverse := (List.reverse_reverse l).symm
    _ = (l.reverse.takeWhile (fun c => c ≠ '.') ++ '.' :: rest).reverse := by
        rw [← hrest, hsplit]
    _ = rest.reverse ++ '.' :: (l.reverse.takeWhile (fun c => c ≠ '.')).reverse := by
        simp
  · intro hdot
    rw [List.mem_reverse] at hdot
    simpa using List.mem_takeWhile_imp hdot

set_option maxRecDepth 40000 in
/-- **C7 counterexample.**  The claim says every reply longer than 500
characters is truncated so the result ends at the last full sentence
(a period boundary) within the first 500 characters.  A 501-character
reply with no period at all is mapped to its first 500 characters with
a period *appended*: the result is not a prefix of the cleaned reply
ending at a period boundary, because the reply has no period. -/
theorem C7_counterexample_no_period_reply :
    500 < (brainClean (List.replicate 501 'a')).length ∧
    ¬ ∃ k, k ≤ 500 ∧
        brainPostProcess (List.replicate 501 'a') =
          (brainClean (List.replicate 501 'a')).take k ∧
        (brainPostProcess (List.replicate 501 'a')).getLast? = some '.' := by
  have hclean : brainClean (List.replicate 501 'a') = List.replicate 501 'a' := by
    decide
  constructor
  · rw [hclean]; decide
  · rintro ⟨k, _, heq, hlast⟩
    rw [hclean] at heq
    rw [heq] at hlast
    obtain ⟨hne, hx⟩ := List.mem_getLast?_eq_getLast (Option.mem_def.mpr hlast)
    have hmem : '.' ∈ (List.replicate 501 'a').take k :=
      hx ▸ List.getLast_mem hne
    have := List.eq_of_mem_replicate (List.take_subset _ _ hmem)
    exact absurd this (by decide)

/-- **C7 (amended).**  Post-processing removes every backtick and `#`
character (`` ``` `` fences and `**` markers are handled by their own
replace passes before these).  A reply whose cleaned text exceeds 500
characters is truncated to end at the last period within its first 500
characters when such a period exists — the result is then a prefix of
the cleaned reply of length ≤ 500 ending in `'.'`, with no later
period inside the first 500 characters; when the first 500 characters
contain no period, the first 500 characters are kept and a period is
appended. -/
theorem C7_postprocess_truncation (r : List Char) :
    ('`' ∉ brainClean r ∧ '#' ∉ brainClean r) ∧
    (500 < (brainClean r).length → '.' ∈ (brainClean r).take 500 →
      ∃ k, k ≤ 500 ∧ brainPostProcess r = (brainClean r).take k ∧
        (brainPostProcess r).getLast? = some '.' ∧
        '.' ∉ ((brainClean r).take 500).drop k) ∧
    (500 < (brainClean r).length → '.' ∉ (brainClean r).take 500 →
      brainPostProcess r = (brainClean r).take 500 ++ ['.']) := by
  refine ⟨brainClean_no_backtick_hash r, ?_, ?_⟩
  · intro h5 hdot
    obtain ⟨tail, hdec, htail⟩ := rsplitLastDot_decomp hdot
    set t := (brainClean r).take 500 with ht
    set rs := rsplitLastDot t with hrs
    have hpp : brainPostProcess r = rs ++ ['.'] := by
      unfold brainPostProcess
      rw [if_pos h5]
    have hlen : t.length = 500 := by
      rw [ht, List.length_take]
      exact Nat.min_eq_left (Nat.le_of_lt h5)
    have hklen : rs.length + 1 ≤ 500 := by
      have : t.length = rs.length + 1 + tail.length := by
        rw [hdec]; simp [Nat.add_assoc, Nat.add_comm, Nat.add_left_comm]
      omega
    refine ⟨rs.length + 1, hklen, ?_, ?_, ?_⟩
    · have htake : t.take (rs.length + 1) = rs ++ ['.'] := by
        conv_lhs => rw [hdec]
        rw [List.take_append]
        simp
      have : (brainClean r).take (rs.length + 1) = t.take (rs.length + 1) := by
        rw [ht, List.take_take, Nat.min_eq_left hklen]
      rw [hpp, this, htake]
    · rw [hpp]
      exact List.getLast?_concat _
    · have hdrop : t.drop (rs.length + 1) = tail := by
        conv_lhs => rw [hdec]
        rw [List.drop_append]
        simp
      rw [hdrop]
      exact htail
  · intro h5 hnodot
    have hall : ((brainClean r).take 500).reverse.dropWhile
        (fun c => c ≠ '.') = [] := by
      rw [List.dropWhile_eq_nil_iff]
      intro x hx
      rw [List.mem_reverse] at hx
      have : x ≠ '.' := fun he => hnodot (he ▸ hx)
      simpa using this
    unfold brainPostProcess
    rw [if_pos h5]
    rw [rsplitLastDot, hall]

set_option maxRecDepth 40000 in
/-- Witness for `C7_postprocess_truncation` at a concrete long reply
containing a period inside the first 500 characters. -/
theorem C7_postprocess_truncation_witness :
    500 < (brainClean (List.replicate 250 'b' ++
      '.' :: List.replicate 300 'c')).length ∧
    ∃ k, k ≤ 500 ∧
      brainPostProcess (List.replicate 250 'b' ++ '.' :: List.replicate 300 'c') =
        (brainClean (List.replicate 250 'b' ++ '.' :: List.replicate 300 'c')).take k ∧
      (brainPostProcess (List.replicate 250 'b' ++
        '.' :: List.replicate 300 'c')).getLast? = some '.' ∧
      '.' ∉ ((brainClean (List.replicate 250 'b' ++
        '.' :: List.replicate 300 'c')).take 500).drop k :=
  ⟨by decide,
   (C7_postprocess_truncation _).2.1 (by decide) (by decide)⟩

/-- `find?` skips a block in which nothing satisfies the predicate. -/
theorem find?_append_of_none {α : Type} {p : α → Bool} {l1 : List α}
    (l2 : List α) (h : ∀ x ∈ l1, p x = false) :
    (l1 ++ l2).find? p = l2.find? p := by
  rw [List.find?_append, List.find?_eq_none.mpr, Option.none_or]
  intro x hx
  simp [h x hx]

/-- A map that fixes every element of a list is the identity there. -/
theorem map_eq_self_of {α : Type} {f : α → α} :
    ∀ {l : List α}, (∀ x ∈ l, f x = x) → l.map f = l := by
  intro l
  induction l with
  | nil => intro _; rfl
  | cons y t ih =>
    intro h
    rw [List.map_cons, h y (List.mem_cons_self _ _),
      ih (fun x hx => h x (List.mem_cons_of_mem _ hx))]

/-- The cascade set only grows. -/
theorem subset_cascadeSet (rows : List TaskRow) :
    ∀ (n : Nat) (acc : List Nat), acc ⊆ cascadeSet rows n acc := by
  intro n
  induction n with
  | zero => intro acc; exact fun x hx => by simpa [cascadeSet] using hx
  | succ n ih =>
    intro acc
    rw [cascadeSet]
    split
    · exact fun x hx => hx
    · exact fun x hx => ih _ (List.mem_append_left _ hx)

/-- A direct child of the deleted task lands in the cascade set. -/
theorem mem_cascadeSet_child (rows : List TaskRow) (parent : Nat)
    (ch : TaskRow) (hc : ch ∈ rows) (hpar : ch.parent = .int parent) :
    ch.id ∈ cascadeSet rows rows.length [parent] := by
  by_cases hid : ch.id = parent
  · exact subset_cascadeSet rows _ _ (by simp [hid])
  · obtain ⟨m, hm⟩ : ∃ m, rows.length = m + 1 :=
      ⟨rows.length - 1, by
        have := List.length_pos.mpr (List.ne_nil_of_mem hc); omega⟩
    have hchmem : ch.id ∈ cascadeStep rows [parent] := by
      unfold cascadeStep
      refine List.mem_map.mpr ⟨ch, List.mem_filter.mpr ⟨hc, ?_⟩, rfl⟩
      rw [hpar]
      simp [List.contains, hid]
    rw [hm, cascadeSet]
    split
    · next hemp => rw [hemp] at hchmem; cases hchmem
    · exact subset_cascadeSet rows m _ (List.mem_append_right _ hchmem)

/-- **C8.**  `update_task` rejects any update dict containing a field
outside the whitelist, and for every
`create_task → update_task(status="completed") → get_task` sequence
the returned task's `completed_at` is non-null and at least the
`updated_at` recorded at creation.  `hfresh` is the AUTOINCREMENT
invariant (every stored id is below the next id) and `hmono` is
monotonicity of the database's `CURRENT_TIMESTAMP` clock. -/
theorem C8_update_whitelist_and_completed_at (db : TaskDB)
    (now1 now2 : Nat) (title : String)
    (hfresh : ∀ r ∈ db.rows, r.id < db.nextId) (hmono : now1 ≤ now2) :
    (∀ (dbx : TaskDB) (now taskId : Nat) (updates : List (String × Val)),
        (∃ fv ∈ updates, allowedFields.contains fv.1 = false) →
        ∃ msg, update_task dbx now taskId updates = .error msg) ∧
    ∃ t db1 t2 db2 subs,
      create_task db now1 title none "pending" "medium" none none none =
        .ok (t, db1) ∧
      update_task db1 now2 t.id [("status", Val.str "completed")] =
        .ok (t2, db2) ∧
      get_task db2 t.id = .ok (t2, subs) ∧
      t2.completedAt = some now2 ∧ t.updatedAt = now1 ∧ t.updatedAt ≤ now2 := by
  constructor
  · intro dbx now taskId updates ⟨fv, hfv, hbad⟩
    unfold update_task
    cases hfind : dbx.rows.find? (fun r => r.id = taskId) with
    | none => exact ⟨"Task not found", rfl⟩
    | some row =>
      have hsome : (updates.find? (fun fv => ¬ allowedFields.contains fv.1)).isSome :=
        List.find?_isSome.mpr ⟨fv, hfv, by simpa using hbad⟩
      obtain ⟨fv', hfv'⟩ := Option.isSome_iff_exists.mp hsome
      rw [hfv']
      exact ⟨_, rfl⟩
  · have hnone : ∀ x ∈ db.rows,
        (fun (r : TaskRow) => decide (r.id = db.nextId)) x = false :=
      fun x hx => by simp [Nat.ne_of_lt (hfresh x hx)]
    have hcreate : create_task db now1 title none "pending" "medium"
        none none none =
        .ok ((⟨db.nextId, .str title, .null, .str "pending", .str "medium",
            .null, .null, .null, now1, now1, none⟩ : TaskRow),
          (⟨db.rows ++ [⟨db.nextId, .str title, .null, .str "pending",
              .str "medium", .null, .null, .null, now1, now1, none⟩],
            db.nextId + 1⟩ : TaskDB)) := rfl
    have hupdate : update_task
        (⟨db.rows ++ [⟨db.nextId, .str title, .null, .str "pending",
            .str "medium", .null, .null, .null, now1, now1, none⟩],
          db.nextId + 1⟩ : TaskDB) now2 db.nextId
        [("status", Val.str "completed")] =
        .ok ((⟨db.nextId, .str title, .null, .str "completed", .str "medium",
            .null, .null, .null, now1, now2, some now2⟩ : TaskRow),
          (⟨db.rows ++ [⟨db.nextId, .str title, .null, .str "completed",
              .str "medium", .null, .null, .null, now1, now2, some now2⟩],
            db.nextId + 1⟩ : TaskDB)) := by
      unfold update_task
      rw [show (⟨db.rows ++ [⟨db.nextId, .str title, .null, .str "pending",
            .str "medium", .null, .null, .null, now1, now1, none⟩],
            db.nextId + 1⟩ : TaskDB).rows
          = db.rows ++ [⟨db.nextId, .str title, .null, .str "pending",
            .str "medium", .null, .null, .null, now1, now1, none⟩] from rfl,
        show List.find? (fun fv => ¬ allowedFields.contains fv.1)
            [("status", Val.str "completed")] = none from rfl,
        find?_append_of_none _ hnone,
        List.find?_cons_of_pos _ (by simp)]
      dsimp only
      rw [if_neg (show ¬ ([("status", Val.str "completed")] :
        List (String × Val)) = [] by simp)]
      rw [show (List.foldl (fun (r : TaskRow) (fv : String × Val) =>
            setField r fv.1 fv.2)
            (⟨db.nextId, Val.str title, Val.null, Val.str "pending",
              Val.str "medium", Val.null, Val.null, Val.null,
              now1, now1, none⟩ : TaskRow)
            [("status", Val.str "completed")])
          = (⟨db.nextId, Val.str title, Val.null, Val.str "completed",
              Val.str "medium", Val.null, Val.null, Val.null,
              now1, now1, none⟩ : TaskRow) from rfl]
      rw [show List.lookup "status" [("status", Val.str "completed")]
          = some (Val.str "completed") from rfl]
      rw [if_pos (rfl : some (Val.str "completed") = some (Val.str "completed"))]
      dsimp only
      rw [List.map_append,
        map_eq_self_of (fun x hx => if_neg (of_decide_eq_false (hnone x hx))),
        List.map_cons, List.map_nil, if_pos rfl,
        find?_append_of_none _ hnone,
        List.find?_cons_of_pos _ (by simp)]
      rfl
    have hget : get_task
        (⟨db.rows ++ [⟨db.nextId, .str title, .null, .str "completed",
            .str "medium", .null, .null, .null, now1, now2, some now2⟩],
          db.nextId + 1⟩ : TaskDB) db.nextId =
        .ok ((⟨db.nextId, .str title, .null, .str "completed", .str "medium",
            .null, .null, .null, now1, now2, some now2⟩ : TaskRow),
          (((db.rows ++ [(⟨db.nextId, .str title, .null, .str "completed",
              .str "medium", .null, .null, .null, now1, now2,
              some now2⟩ : TaskRow)]).filter
            (fun r => r.parent = Val.int db.nextId)).map
              (fun r => r.id))) := by
      unfold get_task
      rw [show (⟨db.rows ++ [⟨db.nextId, .str title, .null, .str "completed",
            .str "medium", .null, .null, .null, now1, now2, some now2⟩],
            db.nextId + 1⟩ : TaskDB).rows
          = db.rows ++ [⟨db.nextId, .str title, .null, .str "completed",
            .str "medium", .null, .null, .null, now1, now2, some now2⟩] from rfl,
        find?_append_of_none _ hnone,
        List.find?_cons_of_pos _ (by simp)]
    exact ⟨_, _, _, _, _, hcreate, hupdate, hget, rfl, rfl, hmono⟩

/-- Witness for `C8_update_whitelist_and_completed_at` on the empty
store at creation time 3 and update time 7. -/
theorem C8_update_whitelist_and_completed_at_witness :
    ∃ t db1 t2 db2 subs,
      create_task ⟨[], 0⟩ 3 "demo" none "pending" "medium" none none none =
        .ok (t, db1) ∧
      update_task db1 7 t.id [("status", Val.str "completed")] =
        .ok (t2, db2) ∧
      get_task db2 t.id = .ok (t2, subs) ∧
      t2.completedAt = some 7 ∧ t.updatedAt = 3 ∧ t.updatedAt ≤ 7 :=
  (C8_update_whitelist_and_completed_at ⟨[], 0⟩ 3 7 "demo"
    (by intro r hr; cases hr) (by omega)).2

/-- **C9.**  With `PRAGMA foreign_keys = ON` and
`ON DELETE CASCADE`, `delete_task(parent)` also deletes every task
whose `parent_task_id` is `parent`, so a subsequent `get_task(child)`
fails with the not-found error. -/
theorem C9_delete_cascades_to_children (db : TaskDB) (parent : Nat)
    (ch : TaskRow) (hp : ∃ pr ∈ db.rows, pr.id = parent)
    (hc : ch ∈ db.rows) (hpar : ch.parent = .int parent) :
    ∃ row db2, delete_task db parent = .ok (row, db2) ∧
      get_task db2 ch.id = .error "Task not found" := by
  obtain ⟨pr, hprmem, hprid⟩ := hp
  have hsome : (db.rows.find? (fun r => r.id = parent)).isSome :=
    List.find?_isSome.mpr ⟨pr, hprmem, by simp [hprid]⟩
  obtain ⟨row, hrow⟩ := Option.isSome_iff_exists.mp hsome
  refine ⟨row, ⟨db.rows.filter (fun r =>
      ¬ (cascadeSet db.rows db.rows.length [parent]).contains r.id),
      db.nextId⟩, ?_, ?_⟩
  · unfold delete_task
    rw [hrow]
  · have hdead : ch.id ∈ cascadeSet db.rows db.rows.length [parent] :=
      mem_cascadeSet_child db.rows parent ch hc hpar
    have hfind : (db.rows.filter (fun r =>
        ¬ (cascadeSet db.rows db.rows.length [parent]).contains r.id)).find?
          (fun r => r.id = ch.id) = none := by
      rw [List.find?_eq_none]
      intro x hx hpx
      have hxf := List.mem_filter.mp hx
      have hxid : x.id = ch.id := by simpa using hpx
      have : ¬ (cascadeSet db.rows db.rows.length [parent]).contains x.id := by
        simpa using hxf.2
      exact this (by simp [List.contains, hxid, hdead])
    unfold get_task
    rw [hfind]

/-- Witness for `C9_delete_cascades_to_children` on a two-task store
where task 2 is a child of task 1. -/
theorem C9_delete_cascades_to_children_witness :
    ∃ row db2,
      delete_task ⟨[⟨1, .str "p", .null, .str "pending", .str "medium",
          .null, .null, .null, 0, 0, none⟩,
        ⟨2, .str "c", .null, .str "pending", .str "medium",
          .null, .int 1, .null, 0, 0, none⟩], 3⟩ 1 = .ok (row, db2) ∧
      get_task db2 (⟨2, .str "c", .null, .str "pending", .str "medium",
          .null, .int 1, .null, 0, 0, none⟩ : TaskRow).id =
        .error "Task not found" :=
  C9_delete_cascades_to_children _ 1 _
    ⟨⟨1, .str "p", .null, .str "pending", .str "medium",
        .null, .null, .null, 0, 0, none⟩, by simp, rfl⟩
    (by simp) rfl

/-- Overwriting a present key makes it readable. -/
theorem dictGet_map_set (k : Nat) (v : Assignment) :
    ∀ l : List (Nat × Assignment), l.any (fun p => p.1 = k) = true →
      dictGet k (l.map (fun p => if p.1 = k then (k, v) else p)) = some v := by
  intro l
  induction l with
  | nil => intro h; simp at h
  | cons p t ih =>
    intro hany
    rw [List.map_cons]
    by_cases hp : p.1 = k
    · rw [if_pos hp]
      simp [dictGet]
    · rw [if_neg hp]
      have hany' : t.any (fun q => q.1 = k) = true := by
        simpa [hp] using hany
      simpa [dictGet, hp] using ih hany'

/-- Appending a fresh key makes it readable. -/
theorem dictGet_append_last (k : Nat) (v : Assignment) :
    ∀ l : List (Nat × Assignment), l.any (fun p => p.1 = k) = false →
      dictGet k (l ++ [(k, v)]) = some v := by
  intro l
  induction l with
  | nil => intro _; simp [dictGet]
  | cons p t ih =>
    intro hany
    by_cases hp : p.1 = k
    · simp [hp] at hany
    · rw [List.cons_append]
      have hany' : t.any (fun q => q.1 = k) = false := by
        simpa [hp] using hany
      simpa [dictGet, hp] using ih hany'

/-- Overwriting one key does not disturb other keys. -/
theorem dictGet_map_set_ne (k w : Nat) (hw : w ≠ k) (v : Assignment) :
    ∀ l : List (Nat × Assignment),
      dictGet w (l.map (fun p => if p.1 = k then (k, v) else p)) =
        dictGet w l := by
  intro l
  induction l with
  | nil => rfl
  | cons p t ih =>
    rw [List.map_cons]
    by_cases hp : p.1 = k
    · rw [if_pos hp]
      have hkw : ¬ k = w := fun h => hw h.symm
      have hpw : ¬ p.1 = w := by rw [hp]; exact hkw
      simpa [dictGet, hkw, hpw] using ih
    · rw [if_neg hp]
      by_cases hpw : p.1 = w
      · simp [dictGet, hpw]
      · simpa [dictGet, hpw] using ih

/-- Appending one key does not disturb other keys. -/
theorem dictGet_append_ne (k w : Nat) (hw : w ≠ k) (v : Assignment) :
    ∀ l : List (Nat × Assignment),
      dictGet w (l ++ [(k, v)]) = dictGet w l := by
  intro l
  induction l with
  | nil =>
    have hkw : ¬ k = w := fun h => hw h.symm
    simp [dictGet, hkw]
  | cons p t ih =>
    rw [List.cons_append]
    by_cases hpw : p.1 = w
    · simp [dictGet, hpw]
    · simpa [dictGet, hpw] using ih

/-- Setting a key makes it readable. -/
theorem dictGet_dictSet_self (l : List (Nat × Assignment)) (k : Nat)
    (v : Assignment) : dictGet k (dictSet l k v) = some v := by
  unfold dictSet
  split
  · next h => exact dictGet_map_set k v l h
  · next h => exact dictGet_append_last k v l (Bool.eq_false_iff.mpr h)

/-- Setting one key leaves every other key's binding unchanged. -/
theorem dictGet_dictSet_ne (l : List (Nat × Assignment)) (k : Nat)
    (v : Assignment) (w : Nat) (hw : w ≠ k) :
    dictGet w (dictSet l k v) = dictGet w l := by
  unfold dictSet
  split
  · exact dictGet_map_set_ne k w hw v l
  · exact dictGet_append_ne k w hw v l

/-- **C10.**  `assign_task` is atomic on the assignment registry: it
returns `True` exactly when all three tmux commands exit zero; on any
non-zero exit it returns `False` with the registry untouched, and on
success it records an `active` assignment for the target window
without disturbing any other window's record. -/
theorem C10_assign_task_atomic (assignments : List (Nat × Assignment))
    (now window : Nat) (prompt : String) (r1 r2 r3 : Int) :
    ((assign_task assignments now window prompt r1 r2 r3).1 = true ↔
      (r1 = 0 ∧ r2 = 0 ∧ r3 = 0)) ∧
    (¬ (r1 = 0 ∧ r2 = 0 ∧ r3 = 0) →
      assign_task assignments now window prompt r1 r2 r3 =
        (false, assignments)) ∧
    ((r1 = 0 ∧ r2 = 0 ∧ r3 = 0) →
      dictGet window (assign_task assignments now window prompt r1 r2 r3).2 =
        some ⟨window, prompt, now, "active"⟩ ∧
      ∀ w, w ≠ window →
        dictGet w (assign_task assignments now window prompt r1 r2 r3).2 =
          dictGet w assignments) := by
  by_cases h1 : r1 = 0
  · by_cases h2 : r2 = 0
    · by_cases h3 : r3 = 0
      · subst h1; subst h2; subst h3
        refine ⟨by simp [assign_task], fun hc => absurd ⟨rfl, rfl, rfl⟩ hc,
          fun _ => ⟨?_, fun w hw => ?_⟩⟩
        · show dictGet window (dictSet assignments window _) = _
          exact dictGet_dictSet_self assignments window _
        · show dictGet w (dictSet assignments window _) = _
          exact dictGet_dictSet_ne assignments window _ w hw
      · simp [assign_task, h1, h2, h3]
    · simp [assign_task, h1, h2]
  · simp [assign_task, h1]

/-- Witness for `C10_assign_task_atomic`: a failing `send-keys` leaves
the registry empty, and an all-zero run records the active
assignment. -/
theorem C10_assign_task_atomic_witness :
    assign_task [] 5 2 "fix tests" 0 0 1 = (false, []) ∧
    dictGet 2 (assign_task [] 5 2 "fix tests" 0 0 0).2 =
      some ⟨2, "fix tests", 5, "active"⟩ :=
  ⟨(C10_assign_task_atomic [] 5 2 "fix tests" 0 0 1).2.1 (by omega),
   ((C10_assign_task_atomic [] 5 2 "fix tests" 0 0 0).2.2 ⟨rfl, rfl, rfl⟩).1⟩

end S2P
